import Mathlib

/-!
Verification of the operation admission-and-pruning engine of
FeatherROM/android_system_security (keystore2), and of the DICE input-value
construction in `diced/open_dice/src/dice.rs`.

The admission engine itself (Operation Registry, Admission Controller,
Pruning Policy, Operation Handle) is exercised by
`keystore2/tests/keystore2_client_tests.rs` but its implementation is not
among the given source files, so it is modelled here from the
natural-language specification (spec.md §§3-7).  The DICE part embeds
`dice.rs` directly.
-/

namespace KeystoreOps

/-- Modelled from the spec: the liveness state of an Operation Entry (§3).
A `Finalized` entry is removed from the table the instant it transitions,
so resident entries are only ever `Active-Idle` or `Active-Busy`. -/
inductive OpState
  | idle
  | busy
deriving DecidableEq

/-- Modelled from the spec: an Operation Entry (§3) — registry-owned record
pairing a Backend Operation Proxy (opaque, modelled as a `Nat`) with
bookkeeping: owner identity, creation sequence, forced flag, liveness
state.  The implementation file is absent from the sources. -/
structure Entry where
  id : Nat
  owner : Nat
  forced : Bool
  sequence : Nat
  state : OpState
  backend_proxy : Nat
deriving DecidableEq

/-- Modelled from the spec: the Operation Registry (§3) — the bounded table
of Operation Entries for one security level, with capacity `nmax`, a
never-reused id supply `nextId` and a monotone creation counter
`nextSeq`. -/
structure Registry where
  entries : List Entry
  nextId : Nat
  nextSeq : Nat
  nmax : Nat
deriving DecidableEq

/-- Modelled from the spec: the number of `Active-*` entries resident in the
table. -/
def Registry.activeCount (r : Registry) : Nat := r.entries.length

/-- Modelled from the spec: the ids of the resident entries. -/
def Registry.activeIds (r : Registry) : List Nat := r.entries.map (·.id)

/-- Modelled from the spec: an empty registry for a table of capacity
`nmax`. -/
def Registry.empty (nmax : Nat) : Registry :=
  { entries := [], nextId := 0, nextSeq := 0, nmax := nmax }

/-- Modelled from the spec: `try_reserve_slot` (§4.1) — under the table's
critical section, succeeds exactly when fewer than `nmax` entries are
`Active-*`. -/
def Registry.try_reserve_slot (r : Registry) : Bool := r.activeCount < r.nmax

/-- Modelled from the spec: `insert` (§4.1) — inserts a newly constructed
Operation Entry in `Active-Idle` state under a fresh id, consuming the
prior reservation. -/
def Registry.insert (r : Registry) (owner : Nat) (forced : Bool) (backend : Nat) :
    Registry :=
  { r with
    entries := r.entries ++
      [{ id := r.nextId, owner := owner, forced := forced, sequence := r.nextSeq,
         state := OpState.idle, backend_proxy := backend }]
    nextId := r.nextId + 1
    nextSeq := r.nextSeq + 1 }

/-- Modelled from the spec: the state-transition helper shared by
`mark_busy` / `mark_idle` — rewrites the state of the entry carrying `id`. -/
def Registry.set_state (r : Registry) (id : Nat) (s : OpState) : Registry :=
  { r with
    entries := r.entries.map fun e => if e.id == id then { e with state := s } else e }

/-- Modelled from the spec: `mark_busy` (§4.1) — transitions
`Active-Idle → Active-Busy` atomically; fails with `InvalidHandle` (here
`none`) if the entry does not exist or is already busy. -/
def Registry.mark_busy (r : Registry) (id : Nat) : Option Registry :=
  match r.entries.find? (fun e => e.id == id) with
  | none => none
  | some e =>
    match e.state with
    | OpState.busy => none
    | OpState.idle => some (r.set_state id OpState.busy)

/-- Modelled from the spec: `mark_idle` (§4.1) — transitions
`Active-Busy → Active-Idle`, used when a call completes without
finalizing. -/
def Registry.mark_idle (r : Registry) (id : Nat) : Registry :=
  r.set_state id OpState.idle

/-- Modelled from the spec: `finalize` (§4.1) — removes the entry, releasing
its slot; idempotent against a missing id. -/
def Registry.finalize (r : Registry) (id : Nat) : Registry :=
  { r with entries := r.entries.filter fun e => e.id != id }

/-- Modelled from the spec: eligibility for pruning — `forced = false` and
state `Active-Idle` (§4.1). -/
def Entry.prunable (e : Entry) : Bool :=
  !e.forced && e.state == OpState.idle

/-- Modelled from the spec: the creation order used by `snapshot_prunable`
(ordered by `sequence` ascending, oldest first). -/
def seqLE (a b : Entry) : Prop := a.sequence ≤ b.sequence

instance : DecidableRel seqLE :=
  fun a b => inferInstanceAs (Decidable (a.sequence ≤ b.sequence))

instance : IsTotal Entry seqLE := ⟨fun a b => Nat.le_total a.sequence b.sequence⟩

instance : IsTrans Entry seqLE := ⟨fun _ _ _ h h2 => Nat.le_trans h h2⟩

/-- Modelled from the spec: `snapshot_prunable` (§4.1) — all entries with
`forced = false` and state `Active-Idle`, ordered by `sequence` ascending
(oldest first). -/
def Registry.snapshot_prunable (r : Registry) : List Nat :=
  (List.insertionSort seqLE (r.entries.filter Entry.prunable)).map (·.id)

/-- Modelled from the spec: the default Pruning Policy `select_victim`
(§4.3) — pick the first candidate (oldest by `sequence`). -/
def select_victim (candidates : List Nat) : Option Nat := candidates.head?

/-- Modelled from the spec: the outcome an admission request reports to its
caller (§4.2, §7): a fresh handle id, `BackendBusy`, or a backend factory
error passed through unchanged. -/
inductive AdmitOutcome
  | admitted (id : Nat)
  | backendBusy
  | backendError (e : Nat)
deriving DecidableEq

/-- Whether an admission outcome is a success. -/
def AdmitOutcome.isAdmitted : AdmitOutcome → Bool
  | AdmitOutcome.admitted _ => true
  | _ => false

/-- Modelled from the spec: step 2 of `admitOp` (§4.2) — with a slot secured,
construct the backend context via the factory (errors propagate unchanged
and release the reservation), build the entry and insert it. -/
def Registry.reserveAndCreate (r : Registry) (owner : Nat) (forced : Bool)
    (factory : Except Nat Nat) : AdmitOutcome × Registry :=
  match factory with
  | Except.error e => (AdmitOutcome.backendError e, r)
  | Except.ok b => (AdmitOutcome.admitted r.nextId, r.insert owner forced b)

/-- Modelled from the spec: the Admission Controller `admitOp` (§4.2).
Reserve a slot if one is free; otherwise a forced caller asks the Pruning
Policy for a victim among `snapshot_prunable`, finalizes it and retries
once, while a non-forced caller — which must never evict anyone — observes
`BackendBusy` at once.  A backend context is never constructed before a
slot is secured. -/
def Registry.admitOp (r : Registry) (owner : Nat) (forced : Bool)
    (factory : Except Nat Nat) : AdmitOutcome × Registry :=
  if r.try_reserve_slot then
    r.reserveAndCreate owner forced factory
  else if forced then
    match select_victim r.snapshot_prunable with
    | none => (AdmitOutcome.backendBusy, r)
    | some v =>
      let r1 := r.finalize v
      if r1.try_reserve_slot then r1.reserveAndCreate owner forced factory
      else (AdmitOutcome.backendBusy, r1)
  else (AdmitOutcome.backendBusy, r)

/-- Modelled from the spec: what a Handle call reports (§4.4, §7). -/
inductive CallResult
  | ok
  | invalidHandle
deriving DecidableEq

/-- Modelled from the spec: the observable effect of one Handle call — the
result, the registry afterwards, and whether the Backend Operation Proxy
was reached at all. -/
structure CallEffect where
  result : CallResult
  reg : Registry
  backendCalled : Bool
deriving DecidableEq

/-- Modelled from the spec: `update` on a Handle (§4.4) — `mark_busy` first;
on `InvalidHandle` return immediately without touching the backend; else
forward to the backend and `mark_idle` on a successful non-terminal
update. -/
def Registry.update (r : Registry) (id : Nat) : CallEffect :=
  match r.mark_busy id with
  | none => { result := CallResult.invalidHandle, reg := r, backendCalled := false }
  | some r1 => { result := CallResult.ok, reg := r1.mark_idle id, backendCalled := true }

/-- Modelled from the spec: `finish` on a Handle (§4.4) — `mark_busy` first;
on `InvalidHandle` return immediately without touching the backend; else
forward to the backend and `finalize`. -/
def Registry.finish (r : Registry) (id : Nat) : CallEffect :=
  match r.mark_busy id with
  | none => { result := CallResult.invalidHandle, reg := r, backendCalled := false }
  | some r1 => { result := CallResult.ok, reg := r1.finalize id, backendCalled := true }

/-- Modelled from the spec: `abort` on a Handle (§4.4) — like `finish`, it
finalizes the entry after the backend call. -/
def Registry.abortOp (r : Registry) (id : Nat) : CallEffect :=
  match r.mark_busy id with
  | none => { result := CallResult.invalidHandle, reg := r, backendCalled := false }
  | some r1 => { result := CallResult.ok, reg := r1.finalize id, backendCalled := true }

/-- Modelled from the spec: one externally triggered step against the
registry — an admission, a Handle call, or the owner-death notification
`finalize_on_owner_gone` (§5, §6). -/
inductive Step
  | admitOp (owner : Nat) (forced : Bool) (factory : Except Nat Nat)
  | update (id : Nat)
  | finish (id : Nat)
  | abortOp (id : Nat)
  | ownerGone (id : Nat)

/-- Modelled from the spec: the registry reached after one step. -/
def stepReg (s : Step) (r : Registry) : Registry :=
  match s with
  | Step.admitOp o f fac => (r.admitOp o f fac).2
  | Step.update id => (r.update id).reg
  | Step.finish id => (r.finish id).reg
  | Step.abortOp id => (r.abortOp id).reg
  | Step.ownerGone id => r.finalize id

/-- Modelled from the spec: the registry reached after a sequence of
steps. -/
def runSteps (ss : List Step) (r : Registry) : Registry :=
  ss.foldl (fun r s => stepReg s r) r

/-- Modelled from the spec: run a list of admission requests
`(owner, forced, factory)` in order, collecting the outcomes and the final
registry. -/
def admitMany : List (Nat × Bool × Except Nat Nat) → Registry →
    List AdmitOutcome × Registry
  | [], r => ([], r)
  | (o, f, fac) :: rest, r =>
    let p := r.admitOp o f fac
    let q := admitMany rest p.2
    (p.1 :: q.1, q.2)

/-- Well-formedness of a registry: resident ids are pairwise distinct and
every resident id was drawn from the id supply (`< nextId`). -/
def Registry.wf (r : Registry) : Prop :=
  r.activeIds.Nodup ∧ ∀ e ∈ r.entries, e.id < r.nextId

instance (r : Registry) : Decidable r.wf :=
  inferInstanceAs (Decidable (_ ∧ _))

/-! ### Basic bookkeeping lemmas -/

theorem activeIds_set_state (r : Registry) (id : Nat) (s : OpState) :
    (r.set_state id s).activeIds = r.activeIds := by
  simp only [Registry.set_state, Registry.activeIds, List.map_map]
  refine List.map_congr_left ?_
  intro e _
  by_cases h : e.id == id <;> simp [h, Function.comp]

theorem set_state_nextId (r : Registry) (id : Nat) (s : OpState) :
    (r.set_state id s).nextId = r.nextId := rfl

theorem set_state_nmax (r : Registry) (id : Nat) (s : OpState) :
    (r.set_state id s).nmax = r.nmax := rfl

theorem finalize_nextId (r : Registry) (id : Nat) :
    (r.finalize id).nextId = r.nextId := rfl

theorem finalize_nmax (r : Registry) (id : Nat) :
    (r.finalize id).nmax = r.nmax := rfl

theorem insert_nextId (r : Registry) (o : Nat) (f : Bool) (b : Nat) :
    (r.insert o f b).nextId = r.nextId + 1 := rfl

theorem insert_nmax (r : Registry) (o : Nat) (f : Bool) (b : Nat) :
    (r.insert o f b).nmax = r.nmax := rfl

theorem activeIds_insert (r : Registry) (o : Nat) (f : Bool) (b : Nat) :
    (r.insert o f b).activeIds = r.activeIds ++ [r.nextId] := by
  simp [Registry.insert, Registry.activeIds]

theorem entries_finalize_sub {r : Registry} {id : Nat} {e : Entry}
    (h : e ∈ (r.finalize id).entries) : e ∈ r.entries := by
  simpa using (List.mem_filter.mp h).1

theorem mem_activeIds_finalize {r : Registry} {id x : Nat}
    (h : x ∈ (r.finalize id).activeIds) : x ∈ r.activeIds := by
  simp only [Registry.activeIds, List.mem_map] at h ⊢
  obtain ⟨e, he, rfl⟩ := h
  exact ⟨e, entries_finalize_sub he, rfl⟩

theorem nodup_activeIds_finalize {r : Registry} {id : Nat}
    (h : r.activeIds.Nodup) : (r.finalize id).activeIds.Nodup :=
  h.sublist (List.Sublist.map _ (List.filter_sublist r.entries))

theorem wf_finalize {r : Registry} (h : r.wf) (id : Nat) : (r.finalize id).wf := by
  refine ⟨nodup_activeIds_finalize h.1, ?_⟩
  intro e he
  exact h.2 e (entries_finalize_sub he)

theorem wf_insert {r : Registry} (h : r.wf) (o : Nat) (f : Bool) (b : Nat) :
    (r.insert o f b).wf := by
  constructor
  · rw [activeIds_insert]
    refine List.Nodup.append h.1 (List.nodup_singleton _) ?_
    intro x hx hx'
    have hlt : x < r.nextId := by
      simp only [Registry.activeIds, List.mem_map] at hx
      obtain ⟨e, he, rfl⟩ := hx
      exact h.2 e he
    simp only [List.mem_singleton] at hx'
    omega
  · intro e he
    simp only [Registry.insert, List.mem_append, List.mem_singleton] at he
    cases he with
    | inl h' => exact Nat.lt_succ_of_lt (h.2 e h')
    | inr h' => subst h'; exact Nat.lt_succ_self _
-- end wf_insert

theorem wf_set_state {r : Registry} (h : r.wf) (id : Nat) (s : OpState) :
    (r.set_state id s).wf := by
  constructor
  · rw [activeIds_set_state]; exact h.1
  · intro e he
    simp only [Registry.set_state, List.mem_map] at he
    obtain ⟨a, ha, rfl⟩ := he
    by_cases hc : a.id == id <;> simp only [hc, if_true, if_false] <;>
      simpa using h.2 a ha

/-! ### Entry lookup under distinct ids -/

theorem entry_eq_of_id {l : List Entry} (hnd : (l.map (·.id)).Nodup) {a b : Entry}
    (ha : a ∈ l) (hb : b ∈ l) (h : a.id = b.id) : a = b :=
  List.inj_on_of_nodup_map hnd ha hb h

theorem find?_id_of_nodup {l : List Entry} {e : Entry}
    (hnd : (l.map (·.id)).Nodup) (he : e ∈ l) :
    l.find? (fun x => x.id == e.id) = some e := by
  induction l with
  | nil => cases he
  | cons a t ih =>
    simp only [List.map_cons, List.nodup_cons] at hnd
    by_cases h : (a.id == e.id) = true
    · simp only [List.find?_cons, h]
      have hid : a.id = e.id := by simpa using h
      cases List.mem_cons.mp he with
      | inl h' => rw [h']
      | inr h' => exact absurd (hid ▸ List.mem_map_of_mem (·.id) h') hnd.1
    · have h' : (a.id == e.id) = false := by simpa using h
      simp only [List.find?_cons, h']
      have het : e ∈ t := by
        cases List.mem_cons.mp he with
        | inl h' => subst h'; simp at h
        | inr h' => exact h'
      exact ih hnd.2 het
-- end find?_id_of_nodup

theorem Entry.state_update_self {e : Entry} {s : OpState} (h : e.state = s) :
    { e with state := s } = e := by
  cases e
  cases h
  rfl

/-! ### mark_busy characterization -/

theorem mark_busy_none_of_not_mem {r : Registry} {id : Nat}
    (h : id ∉ r.activeIds) : r.mark_busy id = none := by
  unfold Registry.mark_busy
  have hf : r.entries.find? (fun e => e.id == id) = none := by
    apply List.find?_eq_none.mpr
    intro e he hbeq
    have hid : e.id = id := by simpa using hbeq
    exact h (hid ▸ List.mem_map_of_mem (·.id) he)
  rw [hf]

theorem mark_busy_of_idle {r : Registry} {e : Entry} (hnd : r.activeIds.Nodup)
    (he : e ∈ r.entries) (hs : e.state = OpState.idle) :
    r.mark_busy e.id = some (r.set_state e.id OpState.busy) := by
  unfold Registry.mark_busy
  rw [show r.entries.find? (fun x => x.id == e.id) = some e from
    find?_id_of_nodup hnd he]
  simp [hs]

theorem mark_busy_some {r r' : Registry} {id : Nat} (h : r.mark_busy id = some r') :
    r' = r.set_state id OpState.busy := by
  unfold Registry.mark_busy at h
  split at h
  · cases h
  · split at h
    · cases h
    · injection h with h
      exact h.symm

/-! ### Case analysis of the Admission Controller -/

theorem admit_cases (r : Registry) (o : Nat) (f : Bool) (fac : Except Nat Nat) :
    r.admitOp o f fac = (AdmitOutcome.backendBusy, r) ∨
    (∃ b, fac = Except.ok b ∧
      r.admitOp o f fac = (AdmitOutcome.admitted r.nextId, r.insert o f b)) ∨
    (∃ e, fac = Except.error e ∧
      r.admitOp o f fac = (AdmitOutcome.backendError e, r)) ∨
    (∃ v, select_victim r.snapshot_prunable = some v ∧ f = true ∧
      ¬r.try_reserve_slot = true ∧
      (r.admitOp o f fac = (AdmitOutcome.backendBusy, r.finalize v) ∨
       (∃ b, fac = Except.ok b ∧
         r.admitOp o f fac =
           (AdmitOutcome.admitted r.nextId, (r.finalize v).insert o f b)) ∨
       (∃ e, fac = Except.error e ∧
         r.admitOp o f fac = (AdmitOutcome.backendError e, r.finalize v)))) := by
  unfold Registry.admitOp Registry.reserveAndCreate
  by_cases h1 : r.try_reserve_slot = true
  · rw [if_pos h1]
    cases fac with
    | error e => exact Or.inr (Or.inr (Or.inl ⟨e, rfl, rfl⟩))
    | ok b => exact Or.inr (Or.inl ⟨b, rfl, rfl⟩)
  · rw [if_neg h1]
    cases f with
    | false =>
      simp only [Bool.false_eq_true, if_false]
      refine Or.inl ?_
      trivial
    | true =>
      rw [if_pos rfl]
      split
      · exact Or.inl rfl
      · rename_i v hv
        by_cases h2 : (r.finalize v).try_reserve_slot = true
        · rw [if_pos h2]
          cases fac with
          | error e =>
            exact Or.inr (Or.inr (Or.inr ⟨v, hv, rfl, h1,
              Or.inr (Or.inr ⟨e, rfl, rfl⟩)⟩))
          | ok b =>
            exact Or.inr (Or.inr (Or.inr ⟨v, hv, rfl, h1,
              Or.inr (Or.inl ⟨b, rfl, rfl⟩)⟩))
        · rw [if_neg h2]
          exact Or.inr (Or.inr (Or.inr ⟨v, hv, rfl, h1, Or.inl rfl⟩))
-- end admit_cases

theorem admit_nmax (r : Registry) (o : Nat) (f : Bool) (fac : Except Nat Nat) :
    (r.admitOp o f fac).2.nmax = r.nmax := by
  rcases admit_cases r o f fac with h | ⟨b, _, h⟩ | ⟨e, _, h⟩ |
    ⟨v, _, _, _, h | ⟨b, _, h⟩ | ⟨e, _, h⟩⟩ <;> rw [h] <;> rfl

theorem admit_nextId_ge (r : Registry) (o : Nat) (f : Bool) (fac : Except Nat Nat) :
    r.nextId ≤ (r.admitOp o f fac).2.nextId := by
  rcases admit_cases r o f fac with h | ⟨b, _, h⟩ | ⟨e, _, h⟩ |
    ⟨v, _, _, _, h | ⟨b, _, h⟩ | ⟨e, _, h⟩⟩ <;> rw [h] <;>
    simp [Registry.insert, Registry.finalize, Nat.le_succ]

theorem mem_activeIds_admitOp {r : Registry} {o : Nat} {f : Bool}
    {fac : Except Nat Nat} {x : Nat}
    (hx : x ∈ (r.admitOp o f fac).2.activeIds) : x ∈ r.activeIds ∨ x = r.nextId := by
  rcases admit_cases r o f fac with h | ⟨b, _, h⟩ | ⟨e, _, h⟩ |
    ⟨v, _, _, _, h | ⟨b, _, h⟩ | ⟨e, _, h⟩⟩ <;> rw [h] at hx
  · exact Or.inl hx
  · rw [activeIds_insert] at hx
    rcases List.mem_append.mp hx with h' | h'
    · exact Or.inl h'
    · exact Or.inr (List.mem_singleton.mp h')
  · exact Or.inl hx
  · exact Or.inl (mem_activeIds_finalize hx)
  · rw [activeIds_insert] at hx
    rcases List.mem_append.mp hx with h' | h'
    · exact Or.inl (mem_activeIds_finalize h')
    · exact Or.inr (List.mem_singleton.mp h')
  · exact Or.inl (mem_activeIds_finalize hx)
-- end mem_activeIds_admitOp

theorem wf_admitOp {r : Registry} (hwf : r.wf) (o : Nat) (f : Bool)
    (fac : Except Nat Nat) : (r.admitOp o f fac).2.wf := by
  rcases admit_cases r o f fac with h | ⟨b, _, h⟩ | ⟨e, _, h⟩ |
    ⟨v, _, _, _, h | ⟨b, _, h⟩ | ⟨e, _, h⟩⟩ <;> rw [h]
  · exact hwf
  · exact wf_insert hwf o f b
  · exact hwf
  · exact wf_finalize hwf v
  · exact wf_insert (wf_finalize hwf v) o f b
  · exact wf_finalize hwf v

/-! ### Handle-call registry effects -/

theorem update_reg_cases (r : Registry) (id : Nat) :
    (r.update id).reg = r ∨
    (r.update id).reg = ((r.set_state id OpState.busy).set_state id OpState.idle) := by
  unfold Registry.update
  cases hm : r.mark_busy id with
  | none => exact Or.inl rfl
  | some r1 =>
    right
    rw [mark_busy_some hm]
    rfl

theorem finish_reg_cases (r : Registry) (id : Nat) :
    (r.finish id).reg = r ∨
    (r.finish id).reg = ((r.set_state id OpState.busy).finalize id) := by
  unfold Registry.finish
  cases hm : r.mark_busy id with
  | none => exact Or.inl rfl
  | some r1 =>
    right
    rw [mark_busy_some hm]

theorem abortOp_reg_cases (r : Registry) (id : Nat) :
    (r.abortOp id).reg = r ∨
    (r.abortOp id).reg = ((r.set_state id OpState.busy).finalize id) := by
  unfold Registry.abortOp
  cases hm : r.mark_busy id with
  | none => exact Or.inl rfl
  | some r1 =>
    right
    rw [mark_busy_some hm]

/-! ### Step preservation -/

theorem wf_stepReg {r : Registry} (hwf : r.wf) (s : Step) : (stepReg s r).wf := by
  cases s with
  | admitOp o f fac => exact wf_admitOp hwf o f fac
  | update id =>
    rcases update_reg_cases r id with h | h <;> rw [stepReg, h]
    · exact hwf
    · exact wf_set_state (wf_set_state hwf id OpState.busy) id OpState.idle
  | finish id =>
    rcases finish_reg_cases r id with h | h <;> rw [stepReg, h]
    · exact hwf
    · exact wf_finalize (wf_set_state hwf id OpState.busy) id
  | abortOp id =>
    rcases abortOp_reg_cases r id with h | h <;> rw [stepReg, h]
    · exact hwf
    · exact wf_finalize (wf_set_state hwf id OpState.busy) id
  | ownerGone id => exact wf_finalize hwf id

theorem stepReg_nextId_ge (r : Registry) (s : Step) :
    r.nextId ≤ (stepReg s r).nextId := by
  cases s with
  | admitOp o f fac => exact admit_nextId_ge r o f fac
  | update id =>
    rcases update_reg_cases r id with h | h <;> rw [stepReg, h] <;>
      exact Nat.le_refl _
  | finish id =>
    rcases finish_reg_cases r id with h | h <;> rw [stepReg, h] <;>
      exact Nat.le_refl _
  | abortOp id =>
    rcases abortOp_reg_cases r id with h | h <;> rw [stepReg, h] <;>
      exact Nat.le_refl _
  | ownerGone id => exact Nat.le_refl _

theorem mem_activeIds_stepReg {r : Registry} {s : Step} {x : Nat}
    (hx : x ∈ (stepReg s r).activeIds) : x ∈ r.activeIds ∨ r.nextId ≤ x := by
  cases s with
  | admitOp o f fac =>
    rcases mem_activeIds_admitOp hx with h | h
    · exact Or.inl h
    · exact Or.inr (Nat.le_of_eq h.symm)
  | update id =>
    rcases update_reg_cases r id with h | h <;> rw [stepReg, h] at hx
    · exact Or.inl hx
    · rw [activeIds_set_state, activeIds_set_state] at hx
      exact Or.inl hx
  | finish id =>
    rcases finish_reg_cases r id with h | h <;> rw [stepReg, h] at hx
    · exact Or.inl hx
    · have := mem_activeIds_finalize hx
      rw [activeIds_set_state] at this
      exact Or.inl this
  | abortOp id =>
    rcases abortOp_reg_cases r id with h | h <;> rw [stepReg, h] at hx
    · exact Or.inl hx
    · have := mem_activeIds_finalize hx
      rw [activeIds_set_state] at this
      exact Or.inl this
  | ownerGone id => exact Or.inl (mem_activeIds_finalize hx)
-- end mem_activeIds_stepReg

/-! ### Snapshot membership -/

theorem mem_snapshot_prunable (r : Registry) (i : Nat) :
    i ∈ r.snapshot_prunable ↔
      ∃ e ∈ r.entries, e.id = i ∧ e.forced = false ∧ e.state = OpState.idle := by
  unfold Registry.snapshot_prunable
  constructor
  · intro h
    obtain ⟨e, he, rfl⟩ := List.mem_map.mp h
    have he' : e ∈ r.entries.filter Entry.prunable :=
      (List.perm_insertionSort seqLE _).subset he
    have hm := List.mem_filter.mp he'
    have hp := hm.2
    simp only [Entry.prunable, Bool.and_eq_true, Bool.not_eq_true', beq_iff_eq] at hp
    exact ⟨e, hm.1, rfl, hp.1, hp.2⟩
  · rintro ⟨e, he, rfl, hf, hs⟩
    apply List.mem_map_of_mem
    refine (List.perm_insertionSort seqLE _).mem_iff.mpr ?_
    refine List.mem_filter.mpr ⟨he, ?_⟩
    simp [Entry.prunable, hf, hs]
-- end mem_snapshot_prunable

theorem snapshot_prunable_eq_nil {r : Registry}
    (h : ∀ e ∈ r.entries, ¬Entry.prunable e = true) : r.snapshot_prunable = [] := by
  unfold Registry.snapshot_prunable
  rw [List.filter_eq_nil_iff.mpr h]
  rfl

theorem admit_busy_of_full_nonforced {r : Registry}
    (h : r.nmax ≤ r.entries.length) (o : Nat) (fac : Except Nat Nat) :
    r.admitOp o false fac = (AdmitOutcome.backendBusy, r) := by
  unfold Registry.admitOp
  have h1 : ¬r.try_reserve_slot = true := by
    simp [Registry.try_reserve_slot, Registry.activeCount, Nat.not_lt.mpr h]
  rw [if_neg h1]
  rfl

/-- C8: the default Pruning Policy `select_victim` is a pure function that
returns the first candidate — the oldest by sequence, since the candidate
list is ordered by sequence ascending — when the candidate list is
non-empty, and `none` when it is empty. -/
theorem select_victim_spec :
    select_victim ([] : List Nat) = none ∧
      ∀ (x : Nat) (xs : List Nat), select_victim (x :: xs) = some x :=
  ⟨rfl, fun _ _ => rfl⟩

/-- C9: `finalize` is idempotent — finalizing twice equals finalizing once,
and finalizing an id that is not in the table leaves the registry
unchanged. -/
theorem finalize_idempotent (r : Registry) (id : Nat) :
    (r.finalize id).finalize id = r.finalize id ∧
      (id ∉ r.activeIds → r.finalize id = r) := by
  constructor
  · rcases r with ⟨es, ni, ns, nm⟩
    simp [Registry.finalize, List.filter_filter]
  · intro h
    rcases r with ⟨es, ni, ns, nm⟩
    simp only [Registry.finalize, Registry.mk.injEq, and_true]
    refine List.filter_eq_self.mpr ?_
    intro a ha
    simp only [bne_iff_ne, ne_eq]
    intro heq
    exact h (heq ▸ List.mem_map_of_mem (·.id) ha)
-- end finalize_idempotent

/-- Witness for C9 at a concrete input: id 7 is absent from the empty
registry, so a first `finalize` is the identity and a second one changes
nothing. -/
theorem finalize_idempotent_witness :
    ((Registry.empty 2).finalize 7).finalize 7 = (Registry.empty 2).finalize 7 ∧
      (Registry.empty 2).finalize 7 = Registry.empty 2 :=
  ⟨(finalize_idempotent (Registry.empty 2) 7).1,
   (finalize_idempotent (Registry.empty 2) 7).2 (by decide)⟩

/-- C3: with every slot of a full table holding a forced entry, a further
forced admission returns `BackendBusy` and the registry — in particular
every existing forced entry — is left unchanged. -/
theorem forced_immunity (r : Registry) (o : Nat) (fac : Except Nat Nat)
    (hfull : r.nmax ≤ r.entries.length)
    (hforced : ∀ e ∈ r.entries, e.forced = true) :
    r.admitOp o true fac = (AdmitOutcome.backendBusy, r) := by
  unfold Registry.admitOp
  have h1 : ¬r.try_reserve_slot = true := by
    simp [Registry.try_reserve_slot, Registry.activeCount, Nat.not_lt.mpr hfull]
  rw [if_neg h1, if_pos rfl]
  have hsnap : r.snapshot_prunable = [] := by
    apply snapshot_prunable_eq_nil
    intro e he
    simp [Entry.prunable, hforced e he]
  rw [hsnap]
  rfl

/-- Witness for C3 at a concrete input: a table of capacity 1 holding one
forced idle entry rejects a further forced admission and keeps its
contents. -/
theorem forced_immunity_witness :
    (Registry.mk [Entry.mk 0 0 true 0 OpState.idle 0] 1 1 1).admitOp 5 true
        (Except.ok 3) =
      (AdmitOutcome.backendBusy, Registry.mk [Entry.mk 0 0 true 0 OpState.idle 0] 1 1 1) :=
  forced_immunity (Registry.mk [Entry.mk 0 0 true 0 OpState.idle 0] 1 1 1) 5
    (Except.ok 3) (by decide) (by decide)

/-- C7: a backend context is built only after a slot is secured.  With a
full table and no eligible victim, `admitOp` returns `BackendBusy` for every
factory — so the factory is never consulted; with a slot secured, an error
from the factory propagates unchanged and the registry is exactly as
before; and an erroring factory never grows the table or admits. -/
theorem admit_factory_discipline (r : Registry) (o : Nat) (f : Bool) :
    (r.nmax ≤ r.entries.length → r.snapshot_prunable = [] →
      ∀ fac, r.admitOp o f fac = (AdmitOutcome.backendBusy, r)) ∧
    (r.try_reserve_slot = true →
      ∀ e, r.admitOp o f (Except.error e) = (AdmitOutcome.backendError e, r)) ∧
    (∀ e, (r.admitOp o f (Except.error e)).2.activeCount ≤ r.activeCount ∧
      ((r.admitOp o f (Except.error e)).1 = AdmitOutcome.backendError e ∨
        (r.admitOp o f (Except.error e)).1 = AdmitOutcome.backendBusy)) := by
  refine ⟨?_, ?_, ?_⟩
  · intro hfull hsnap fac
    cases f with
    | false => exact admit_busy_of_full_nonforced hfull o fac
    | true =>
      unfold Registry.admitOp
      have h1 : ¬r.try_reserve_slot = true := by
        simp [Registry.try_reserve_slot, Registry.activeCount, Nat.not_lt.mpr hfull]
      rw [if_neg h1, if_pos rfl, hsnap]
      rfl
  · intro h1 e
    unfold Registry.admitOp
    rw [if_pos h1]
    rfl
  · intro e
    rcases admit_cases r o f (Except.error e) with h | ⟨b, hb, h⟩ | ⟨e', he', h⟩ |
      ⟨v, _, _, _, h | ⟨b, hb, h⟩ | ⟨e', he', h⟩⟩
    · rw [h]; exact ⟨Nat.le_refl _, Or.inr rfl⟩
    · cases hb
    · cases he'
      rw [h]
      exact ⟨Nat.le_refl _, Or.inl rfl⟩
    · rw [h]
      exact ⟨List.length_filter_le _ _, Or.inr rfl⟩
    · cases hb
    · cases he'
      rw [h]
      exact ⟨List.length_filter_le _ _, Or.inl rfl⟩
-- end admit_factory_discipline

/-- Witness for C7 at concrete inputs: a capacity-1 table holding one busy
entry (so no victim exists) rejects a forced admission without consulting
the factory, and on an empty table a factory error propagates unchanged
leaving the registry as it was. -/
theorem admit_factory_discipline_witness :
    (Registry.mk [Entry.mk 0 0 false 0 OpState.busy 0] 1 1 1).admitOp 9 true
        (Except.ok 4) =
      (AdmitOutcome.backendBusy, Registry.mk [Entry.mk 0 0 false 0 OpState.busy 0] 1 1 1) ∧
    (Registry.empty 1).admitOp 9 true (Except.error 5) =
      (AdmitOutcome.backendError 5, Registry.empty 1) :=
  ⟨(admit_factory_discipline (Registry.mk [Entry.mk 0 0 false 0 OpState.busy 0] 1 1 1)
      9 true).1 (by decide) (by decide) (Except.ok 4),
   (admit_factory_discipline (Registry.empty 1) 9 true).2.1 (by decide) 5⟩

/-! ### Saturation under non-forced admissions -/

theorem admit_nonforced_len {r : Registry} {o : Nat} {fac : Except Nat Nat}
    (h : ((r.admitOp o false fac).1).isAdmitted = true) :
    (r.admitOp o false fac).2.entries.length = r.entries.length + 1 := by
  rcases admit_cases r o false fac with hc | ⟨b, _, hc⟩ | ⟨e, _, hc⟩ |
    ⟨v, _, hf, _, _⟩
  · rw [hc] at h
    simp [AdmitOutcome.isAdmitted] at h
  · rw [hc]
    simp [Registry.insert]
  · rw [hc] at h
    simp [AdmitOutcome.isAdmitted] at h
  · cases hf

theorem admitMany_nmax (reqs : List (Nat × Bool × Except Nat Nat)) :
    ∀ r : Registry, (admitMany reqs r).2.nmax = r.nmax := by
  induction reqs with
  | nil => intro r; rfl
  | cons p rest ih =>
    intro r
    obtain ⟨o, f, fac⟩ := p
    simp only [admitMany]
    rw [ih]
    exact admit_nmax r o f fac

theorem admitMany_nonforced_len (reqs : List (Nat × Except Nat Nat)) :
    ∀ r : Registry,
      (∀ out ∈ (admitMany (reqs.map fun p => (p.1, false, p.2)) r).1,
        out.isAdmitted = true) →
      (admitMany (reqs.map fun p => (p.1, false, p.2)) r).2.entries.length
        = r.entries.length + reqs.length := by
  induction reqs with
  | nil => intro r _; rfl
  | cons p rest ih =>
    intro r h
    obtain ⟨o, fac⟩ := p
    simp only [List.map_cons, admitMany] at h ⊢
    have hhead : (r.admitOp o false fac).1.isAdmitted = true :=
      h _ (List.mem_cons_self _ _)
    have htail := fun out ho => h out (List.mem_cons_of_mem _ ho)
    have h1 := admit_nonforced_len hhead
    have h2 := ih (r.admitOp o false fac).2 htail
    rw [h2, h1, List.length_cons]
    omega

/-- C2: after a sequence of `N_max` successful non-forced admissions into an
initially empty table of capacity `N_max`, with no intervening finalize, a
further non-forced admission returns `BackendBusy` and leaves the registry
untouched — a non-forced caller never evicts anyone when saturated. -/
theorem saturation (n : Nat) (reqs : List (Nat × Except Nat Nat))
    (hlen : reqs.length = n)
    (hok : ∀ out ∈ (admitMany (reqs.map fun p => (p.1, false, p.2))
        (Registry.empty n)).1, out.isAdmitted = true)
    (o : Nat) (fac : Except Nat Nat) :
    ((admitMany (reqs.map fun p => (p.1, false, p.2)) (Registry.empty n)).2).admitOp
        o false fac =
      (AdmitOutcome.backendBusy,
        (admitMany (reqs.map fun p => (p.1, false, p.2)) (Registry.empty n)).2) := by
  apply admit_busy_of_full_nonforced
  have h1 := admitMany_nonforced_len reqs (Registry.empty n) hok
  have h2 := admitMany_nmax (reqs.map fun p => (p.1, false, p.2)) (Registry.empty n)
  rw [h2, h1]
  simp [Registry.empty, hlen]

/-- Witness for C2 at a concrete input: capacity 1, one successful
non-forced admission, then a second non-forced admission is rejected with
`BackendBusy` and the registry is unchanged. -/
theorem saturation_witness :
    ((admitMany ([((0 : Nat), (Except.ok 0 : Except Nat Nat))].map
          fun p => (p.1, false, p.2)) (Registry.empty 1)).2).admitOp
        7 false (Except.ok 1) =
      (AdmitOutcome.backendBusy,
        (admitMany ([((0 : Nat), (Except.ok 0 : Except Nat Nat))].map
          fun p => (p.1, false, p.2)) (Registry.empty 1)).2) :=
  saturation 1 [((0 : Nat), (Except.ok 0 : Except Nat Nat))] rfl (by decide)
    7 (Except.ok 1)

/-! ### The snapshot contract -/

/-- What C6 asserts of `snapshot_prunable`: its members are exactly the ids
of the non-forced `Active-Idle` entries, they come ordered by `sequence`
ascending, and a busy entry's id never appears. -/
def snapshotSpec (r : Registry) : Prop :=
  (∀ i, i ∈ r.snapshot_prunable ↔
    ∃ e ∈ r.entries, e.id = i ∧ e.forced = false ∧ e.state = OpState.idle) ∧
  r.snapshot_prunable.Pairwise (fun i j =>
    ∀ ei ∈ r.entries, ∀ ej ∈ r.entries,
      ei.id = i → ej.id = j → ei.sequence ≤ ej.sequence) ∧
  (∀ e ∈ r.entries, e.state = OpState.busy → e.id ∉ r.snapshot_prunable)

/-- C6: on a well-formed registry, `snapshot_prunable` returns exactly the
ids of the entries with `forced = false` in state `Active-Idle`, ordered by
`sequence` ascending (oldest first); in particular an `Active-Busy` entry is
never in the returned sequence, even when its sequence number is the
smallest. -/
theorem snapshot_prunable_spec (r : Registry) (hwf : r.wf) : snapshotSpec r := by
  refine ⟨mem_snapshot_prunable r, ?_, ?_⟩
  · unfold Registry.snapshot_prunable
    rw [List.pairwise_map]
    have hs : (List.insertionSort seqLE (r.entries.filter Entry.prunable)).Pairwise
        seqLE := List.sorted_insertionSort seqLE _
    refine List.Pairwise.imp_of_mem ?_ hs
    intro a b ha hb hab
    intro ei hei ej hej hia hjb
    have hae : a ∈ r.entries :=
      (List.mem_filter.mp ((List.perm_insertionSort seqLE _).subset ha)).1
    have hbe : b ∈ r.entries :=
      (List.mem_filter.mp ((List.perm_insertionSort seqLE _).subset hb)).1
    have hea : ei = a := entry_eq_of_id hwf.1 hei hae hia
    have heb : ej = b := entry_eq_of_id hwf.1 hej hbe hjb
    rw [hea, heb]
    exact hab
  · intro e he hbusy hmem
    obtain ⟨e', he', hid, _, hs⟩ := (mem_snapshot_prunable r e.id).mp hmem
    have heq : e' = e := entry_eq_of_id hwf.1 he' he hid
    rw [heq, hbusy] at hs
    cases hs
-- end snapshot_prunable_spec

/-- Witness for C6 at a concrete input: a well-formed two-entry registry in
which the oldest entry is busy. -/
theorem snapshot_prunable_spec_witness :
    snapshotSpec (Registry.mk [Entry.mk 0 0 false 0 OpState.busy 0,
      Entry.mk 1 0 false 1 OpState.idle 0] 2 2 2) :=
  snapshot_prunable_spec
    (Registry.mk [Entry.mk 0 0 false 0 OpState.busy 0,
      Entry.mk 1 0 false 1 OpState.idle 0] 2 2 2) (by decide)

/-! ### Finalized ids stay dead -/

/-- An id that is out of the table and below the id supply: it can never be
resident again, since fresh ids are always drawn at `nextId`. -/
def deadId (r : Registry) (id : Nat) : Prop :=
  id ∉ r.activeIds ∧ id < r.nextId

theorem deadId_stepReg {r : Registry} {id : Nat} (h : deadId r id) (s : Step) :
    deadId (stepReg s r) id := by
  constructor
  · intro hmem
    rcases mem_activeIds_stepReg hmem with h' | h'
    · exact h.1 h'
    · have := h.2
      omega
  · exact Nat.lt_of_lt_of_le h.2 (stepReg_nextId_ge r s)

theorem deadId_runSteps {r : Registry} {id : Nat} (h : deadId r id)
    (ss : List Step) : deadId (runSteps ss r) id := by
  induction ss generalizing r with
  | nil => exact h
  | cons s t ih => exact ih (deadId_stepReg h s)

/-- What C5 asserts of a dead id: every Handle call against it fails with
`InvalidHandle` at the Registry's liveness check, the Backend Operation
Proxy is never invoked, and the registry is untouched. -/
def prunedDead (r : Registry) (id : Nat) : Prop :=
  (r.update id).result = CallResult.invalidHandle ∧
  (r.update id).backendCalled = false ∧ (r.update id).reg = r ∧
  (r.finish id).result = CallResult.invalidHandle ∧
  (r.finish id).backendCalled = false ∧ (r.finish id).reg = r ∧
  (r.abortOp id).result = CallResult.invalidHandle ∧
  (r.abortOp id).backendCalled = false ∧ (r.abortOp id).reg = r

theorem dead_calls {r : Registry} {id : Nat} (h : id ∉ r.activeIds) :
    prunedDead r id := by
  have hm := mark_busy_none_of_not_mem h
  unfold prunedDead Registry.update Registry.finish Registry.abortOp
  rw [hm]
  exact ⟨rfl, rfl, rfl, rfl, rfl, rfl, rfl, rfl, rfl⟩

/-- C5: once `finalize id` has run on a registry whose id supply has moved
past `id` (true of every id ever admitted), then after any sequence of
further admissions, Handle calls and owner-death notifications, every
`update`/`finish`/`abort` against `id` fails with `InvalidHandle` without
the backend proxy ever being invoked. -/
theorem finalize_then_dead (r : Registry) (id : Nat) (hid : id < r.nextId)
    (ss : List Step) : prunedDead (runSteps ss (r.finalize id)) id := by
  have h0 : deadId (r.finalize id) id := by
    constructor
    · intro hmem
      obtain ⟨e, he, heid⟩ := List.mem_map.mp hmem
      have hne := (List.mem_filter.mp he).2
      rw [bne_iff_ne] at hne
      exact hne heid
    · exact hid
  exact dead_calls (deadId_runSteps h0 ss).1

/-- Witness for C5 at a concrete input: finalize the only entry, run one
more admission (which allocates a fresh id), and the finalized id 0 still
fails all three calls without reaching the backend. -/
theorem finalize_then_dead_witness :
    prunedDead (runSteps [Step.admitOp 1 false (Except.ok 0)]
      ((Registry.mk [Entry.mk 0 0 false 0 OpState.idle 0] 1 1 1).finalize 0)) 0 :=
  finalize_then_dead (Registry.mk [Entry.mk 0 0 false 0 OpState.idle 0] 1 1 1) 0
    (by decide) [Step.admitOp 1 false (Except.ok 0)]

/-! ### Forced entries are never victims and survive -/

theorem select_victim_not_forced {r : Registry} (hwf : r.wf) {e : Entry}
    (he : e ∈ r.entries) (hf : e.forced = true) :
    select_victim r.snapshot_prunable ≠ some e.id := by
  intro h
  have hv : e.id ∈ r.snapshot_prunable := List.mem_of_mem_head? h
  obtain ⟨e', he', hid, hf', _⟩ := (mem_snapshot_prunable r e.id).mp hv
  have heq : e' = e := entry_eq_of_id hwf.1 he' he hid
  rw [heq, hf] at hf'
  cases hf'

theorem forced_mem_admitOp {r : Registry} (hwf : r.wf) {e : Entry}
    (he : e ∈ r.entries) (hf : e.forced = true) (o : Nat) (f : Bool)
    (fac : Except Nat Nat) : e ∈ (r.admitOp o f fac).2.entries := by
  have hfin : ∀ v, select_victim r.snapshot_prunable = some v →
      e ∈ (r.finalize v).entries := by
    intro v hv
    have hne : e.id ≠ v := by
      intro hh
      exact select_victim_not_forced hwf he hf (by rw [hh]; exact hv)
    exact List.mem_filter.mpr ⟨he, by simpa [bne_iff_ne] using hne⟩
  rcases admit_cases r o f fac with h | ⟨b, _, h⟩ | ⟨e', _, h⟩ |
    ⟨v, hv, _, _, h | ⟨b, _, h⟩ | ⟨e', _, h⟩⟩ <;> rw [h]
  · exact he
  · exact List.mem_append.mpr (Or.inl he)
  · exact he
  · exact hfin v hv
  · exact List.mem_append.mpr (Or.inl (hfin v hv))
  · exact hfin v hv

theorem forced_mem_admitMany (reqs : List (Nat × Bool × Except Nat Nat)) :
    ∀ {r : Registry} {e : Entry}, r.wf → e ∈ r.entries → e.forced = true →
      e ∈ (admitMany reqs r).2.entries ∧ (admitMany reqs r).2.wf := by
  induction reqs with
  | nil => exact fun hwf he _ => ⟨he, hwf⟩
  | cons p rest ih =>
    intro r e hwf he hf
    obtain ⟨o, f, fac⟩ := p
    simp only [admitMany]
    exact ih (wf_admitOp hwf o f fac) (forced_mem_admitOp hwf he hf o f fac) hf

theorem update_ok_of_idle {r : Registry} (hwf : r.wf) {e : Entry}
    (he : e ∈ r.entries) (hs : e.state = OpState.idle) :
    (r.update e.id).result = CallResult.ok ∧
    (r.update e.id).backendCalled = true ∧
    (r.update e.id).reg.wf ∧ e ∈ (r.update e.id).reg.entries := by
  have hm := mark_busy_of_idle hwf.1 he hs
  unfold Registry.update
  rw [hm]
  refine ⟨rfl, rfl, ?_, ?_⟩
  · exact wf_set_state (wf_set_state hwf e.id OpState.busy) e.id OpState.idle
  · show e ∈ ((r.set_state e.id OpState.busy).set_state e.id OpState.idle).entries
    simp only [Registry.set_state, List.map_map]
    refine List.mem_map.mpr ⟨e, he, ?_⟩
    simp only [Function.comp, beq_self_eq_true, if_true]
    exact Entry.state_update_self hs
-- end update_ok_of_idle

theorem finish_ok_of_idle {r : Registry} (hwf : r.wf) {e : Entry}
    (he : e ∈ r.entries) (hs : e.state = OpState.idle) :
    (r.finish e.id).result = CallResult.ok ∧
    (r.finish e.id).backendCalled = true := by
  have hm := mark_busy_of_idle hwf.1 he hs
  unfold Registry.finish
  rw [hm]
  exact ⟨rfl, rfl⟩

/-- What C4 asserts of a surviving forced entry: it is still resident after
the whole admission sequence, its `update` succeeds, and a `finish` on the
registry left by that `update` succeeds as well. -/
def survivalPost (r : Registry) (e : Entry)
    (reqs : List (Nat × Bool × Except Nat Nat)) : Prop :=
  e ∈ (admitMany reqs r).2.entries ∧
  ((admitMany reqs r).2.update e.id).result = CallResult.ok ∧
  (((admitMany reqs r).2.update e.id).reg.finish e.id).result = CallResult.ok

/-- C4: on a well-formed registry a forced entry — whatever its business
state, idle or busy — is never chosen as the eviction victim, and a forced
entry that is idle (not mid-call) before any number of subsequent forced or
non-forced admissions is still resident and usable — `update` and then
`finish` both succeed — after all of them. -/
theorem forced_never_victim (r : Registry) (e : Entry) (hwf : r.wf)
    (he : e ∈ r.entries) (hf : e.forced = true)
    (reqs : List (Nat × Bool × Except Nat Nat)) :
    select_victim r.snapshot_prunable ≠ some e.id ∧
      (e.state = OpState.idle → survivalPost r e reqs) := by
  refine ⟨select_victim_not_forced hwf he hf, ?_⟩
  intro hs
  obtain ⟨hmem, hwf'⟩ := forced_mem_admitMany reqs hwf he hf
  obtain ⟨hres, _, hwf2, hmem2⟩ := update_ok_of_idle hwf' hmem hs
  exact ⟨hmem, hres, (finish_ok_of_idle hwf2 hmem2 hs).1⟩

/-- Witness for C4 at a concrete input: one forced idle entry filling a
capacity-1 table survives a forced and a non-forced admission attempt and
remains usable. -/
theorem forced_never_victim_witness :
    select_victim (Registry.mk [Entry.mk 0 0 true 0 OpState.idle 0] 1 1 1).snapshot_prunable
        ≠ some (Entry.mk 0 0 true 0 OpState.idle 0).id ∧
      survivalPost (Registry.mk [Entry.mk 0 0 true 0 OpState.idle 0] 1 1 1)
        (Entry.mk 0 0 true 0 OpState.idle 0)
        [(3, true, Except.ok 1), (4, false, Except.ok 2)] :=
  ⟨(forced_never_victim (Registry.mk [Entry.mk 0 0 true 0 OpState.idle 0] 1 1 1)
      (Entry.mk 0 0 true 0 OpState.idle 0) (by decide) (by decide) rfl
      [(3, true, Except.ok 1), (4, false, Except.ok 2)]).1,
   (forced_never_victim (Registry.mk [Entry.mk 0 0 true 0 OpState.idle 0] 1 1 1)
      (Entry.mk 0 0 true 0 OpState.idle 0) (by decide) (by decide) rfl
      [(3, true, Except.ok 1), (4, false, Except.ok 2)]).2 rfl⟩

/-! ### Forced eviction on a full table of idle non-forced entries -/

theorem length_filter_ne_id (l : List Entry) (v : Nat)
    (hnd : (l.map (·.id)).Nodup) (hv : v ∈ l.map (·.id)) :
    (l.filter fun x => x.id != v).length + 1 = l.length := by
  induction l with
  | nil => cases hv
  | cons a t ih =>
    simp only [List.map_cons, List.nodup_cons] at hnd
    by_cases h : a.id = v
    · subst h
      have hnt : ∀ x ∈ t, (x.id != a.id) = true := by
        intro x hx
        rw [bne_iff_ne]
        intro hh
        exact hnd.1 (hh ▸ List.mem_map_of_mem (·.id) hx)
      simp only [List.filter_cons, bne_self_eq_false, if_false]
      rw [List.filter_eq_self.mpr hnt]
      rfl
    · have hvt : v ∈ t.map (·.id) := by
        cases List.mem_cons.mp hv with
        | inl h' => exact absurd h'.symm h
        | inr h' => exact h'
      have hkeep : (a.id != v) = true := bne_iff_ne.mpr h
      simp only [List.filter_cons, hkeep, if_true, List.length_cons]
      have := ih hnd.2 hvt
      omega
-- end length_filter_ne_id

/-- What C1 asserts of a forced admission into a full table of idle
non-forced entries: it succeeds with the fresh id, the table stays within
`N_max`, and exactly one previously admitted id — the victim — now fails
`update`/`finish`/`abort` with `InvalidHandle` without reaching the backend,
while every other previously admitted id still updates fine. -/
def forcedEvictionPost (r : Registry) (o b : Nat) : Prop :=
  (r.admitOp o true (Except.ok b)).1 = AdmitOutcome.admitted r.nextId ∧
  (r.admitOp o true (Except.ok b)).2.activeCount ≤ r.nmax ∧
  ∃ v ∈ r.activeIds,
    ((r.admitOp o true (Except.ok b)).2.update v).result = CallResult.invalidHandle ∧
    ((r.admitOp o true (Except.ok b)).2.update v).backendCalled = false ∧
    ((r.admitOp o true (Except.ok b)).2.finish v).result = CallResult.invalidHandle ∧
    ((r.admitOp o true (Except.ok b)).2.abortOp v).result = CallResult.invalidHandle ∧
    ∀ w ∈ r.activeIds, w ≠ v →
      ((r.admitOp o true (Except.ok b)).2.update w).result = CallResult.ok

/-- C1: on a well-formed registry whose table is full of non-forced
`Active-Idle` entries, a forced admission succeeds, the count of resident
entries stays at most `N_max`, and exactly one previously admitted
non-forced entry subsequently answers `InvalidHandle` on its next
`update`/`finish`/`abort` — all the others still work. -/
theorem forced_eviction (r : Registry) (o b : Nat) (hwf : r.wf)
    (hfull : r.entries.length = r.nmax) (hne : r.entries ≠ [])
    (hall : ∀ e ∈ r.entries, e.forced = false ∧ e.state = OpState.idle) :
    forcedEvictionPost r o b := by
  have h1 : ¬r.try_reserve_slot = true := by
    simp only [Registry.try_reserve_slot, Registry.activeCount, decide_eq_true_eq]
    omega
  have hfe : r.entries.filter Entry.prunable = r.entries :=
    List.filter_eq_self.mpr fun e he => by
      simp [Entry.prunable, (hall e he).1, (hall e he).2]
  have hlen_snap : r.snapshot_prunable.length = r.entries.length := by
    unfold Registry.snapshot_prunable
    rw [hfe, List.length_map, (List.perm_insertionSort seqLE _).length_eq]
  cases hsv : select_victim r.snapshot_prunable with
  | none =>
    exfalso
    have : r.snapshot_prunable = [] := List.head?_eq_none_iff.mp hsv
    rw [this] at hlen_snap
    exact hne (List.length_eq_zero.mp hlen_snap.symm)
  | some v =>
    have hv_mem : v ∈ r.snapshot_prunable := List.mem_of_mem_head? hsv
    obtain ⟨ev, hev, hevid, _, _⟩ := (mem_snapshot_prunable r v).mp hv_mem
    have hv_act : v ∈ r.activeIds := hevid ▸ List.mem_map_of_mem (·.id) hev
    have hflen : (r.finalize v).entries.length + 1 = r.entries.length :=
      length_filter_ne_id r.entries v hwf.1 hv_act
    have h2 : (r.finalize v).try_reserve_slot = true := by
      simp only [Registry.try_reserve_slot, Registry.activeCount, finalize_nmax,
        decide_eq_true_eq]
      omega
    have hadm : r.admitOp o true (Except.ok b) =
        (AdmitOutcome.admitted r.nextId, (r.finalize v).insert o true b) := by
      unfold Registry.admitOp
      rw [if_neg h1, if_pos rfl]
      simp only [hsv]
      rw [if_pos h2]
      rfl
    have hvdead : v ∉ ((r.finalize v).insert o true b).activeIds := by
      rw [activeIds_insert]
      intro hmem
      rcases List.mem_append.mp hmem with hm | hm
      · obtain ⟨e, he, heid⟩ := List.mem_map.mp hm
        have hb := (List.mem_filter.mp he).2
        rw [bne_iff_ne] at hb
        exact hb heid
      · have hlt : v < r.nextId := hevid ▸ hwf.2 ev hev
        have hveq : v = r.nextId := List.mem_singleton.mp hm
        omega
    have hd := dead_calls hvdead
    refine ⟨by rw [hadm], ?_, v, hv_act, ?_, ?_, ?_, ?_, ?_⟩
    · rw [hadm]
      simp only [Registry.activeCount, Registry.insert, List.length_append,
        List.length_singleton]
      omega
    · rw [hadm]
      exact hd.1
    · rw [hadm]
      exact hd.2.1
    · rw [hadm]
      exact hd.2.2.2.1
    · rw [hadm]
      exact hd.2.2.2.2.2.2.1
    · intro w hw hwv
      rw [hadm]
      obtain ⟨ew, hew, hewid⟩ := List.mem_map.mp hw
      have hws : ew.state = OpState.idle := (hall ew hew).2
      have hwmem : ew ∈ ((r.finalize v).insert o true b).entries := by
        refine List.mem_append.mpr (Or.inl ?_)
        refine List.mem_filter.mpr ⟨hew, ?_⟩
        rw [bne_iff_ne]
        intro hh
        exact hwv (hewid ▸ hh)
      have hwf' : ((r.finalize v).insert o true b).wf :=
        wf_insert (wf_finalize hwf v) o true b
      rw [← hewid]
      exact (update_ok_of_idle hwf' hwmem hws).1
-- end forced_eviction

/-- Witness for C1 at a concrete input: a capacity-2 table full of two
non-forced idle entries accepts a forced admission. -/
theorem forced_eviction_witness :
    forcedEvictionPost (Registry.mk [Entry.mk 0 0 false 0 OpState.idle 0,
      Entry.mk 1 0 false 1 OpState.idle 0] 2 2 2) 9 5 :=
  forced_eviction (Registry.mk [Entry.mk 0 0 false 0 OpState.idle 0,
      Entry.mk 1 0 false 1 OpState.idle 0] 2 2 2) 9 5
    (by decide) (by decide) (by decide) (by decide)

end KeystoreOps

namespace OpenDice

/-- `DICE_HASH_SIZE` from dice.h (mirrored by `HASH_SIZE` in dice.rs). -/
def HASH_SIZE : Nat := 64

/-- `DICE_HIDDEN_SIZE` from dice.h (mirrored by `HIDDEN_SIZE` in dice.rs). -/
def HIDDEN_SIZE : Nat := 64

/-- `DICE_INLINE_CONFIG_SIZE` from dice.h (mirrored by `INLINE_CONFIG_SIZE`
in dice.rs). -/
def INLINE_CONFIG_SIZE : Nat := 64

/-- `DICE_CDI_SIZE` from dice.h (mirrored by `CDI_SIZE` in dice.rs). -/
def CDI_SIZE : Nat := 32

/-- `DiceConfigType` from the open-dice bindings: the tag of the
configuration input. -/
inductive DiceConfigType
  | kDiceConfigTypeInline
  | kDiceConfigTypeDescriptor
deriving DecidableEq

/-- `DiceMode` from the open-dice bindings. -/
inductive DiceMode
  | kDiceModeNotInitialized
  | kDiceModeNormal
  | kDiceModeDebug
  | kDiceModeMaintenance
deriving DecidableEq

/-- `DiceInputValues` from the open-dice bindings, as populated by
`InputValues::new` in dice.rs.  Byte arrays (`[u8; N]`, `*const u8` plus a
length) are modelled as `List Nat`; a raw pointer is `Option (List Nat)`
with `none` for `ptr::null()`. -/
structure DiceInputValues where
  code_hash : List Nat
  code_descriptor : Option (List Nat)
  code_descriptor_size : Nat
  config_type : DiceConfigType
  config_value : List Nat
  config_descriptor : Option (List Nat)
  config_descriptor_size : Nat
  authority_hash : List Nat
  authority_descriptor : Option (List Nat)
  authority_descriptor_size : Nat
  mode : DiceMode
  hidden : List Nat
deriving DecidableEq

/-- `Config` from dice.rs: an inline configuration value or a free-form
descriptor to be hashed by the implementation. -/
inductive Config
  | Inline (c : List Nat)
  | Descriptor (d : List Nat)
deriving DecidableEq

/-- `Config::dice_config_type` from dice.rs. -/
def Config.dice_config_type : Config → DiceConfigType
  | Config.Inline _ => DiceConfigType.kDiceConfigTypeInline
  | Config.Descriptor _ => DiceConfigType.kDiceConfigTypeDescriptor

/-- `Config::inline_config` from dice.rs: the inline value, or all zero
bytes for a descriptor configuration. -/
def Config.inline_config : Config → List Nat
  | Config.Inline inl => inl
  | Config.Descriptor _ => List.replicate INLINE_CONFIG_SIZE 0

/-- `Config::descriptor_ptr` from dice.rs: the descriptor slice, or null. -/
def Config.descriptor_ptr : Config → Option (List Nat)
  | Config.Descriptor d => some d
  | _ => none

/-- `Config::descriptor_size` from dice.rs. -/
def Config.descriptor_size : Config → Nat
  | Config.Descriptor d => d.length
  | _ => 0

/-- `InputValues` from dice.rs: a wrapper of `DiceInputValues`. -/
structure InputValues where
  val : DiceInputValues
deriving DecidableEq

/-- `InputValues::new` from dice.rs. -/
def InputValues.new (code_hash : List Nat) (config : Config)
    (authority_hash : List Nat) (mode : DiceMode) (hidden : List Nat) :
    InputValues :=
  ⟨{ code_hash := code_hash
     code_descriptor := none
     code_descriptor_size := 0
     config_type := config.dice_config_type
     config_value := config.inline_config
     config_descriptor := config.descriptor_ptr
     config_descriptor_size := config.descriptor_size
     authority_hash := authority_hash
     authority_descriptor := none
     authority_descriptor_size := 0
     mode := mode
     hidden := hidden }⟩

/-- What C10 asserts of `InputValues::new`: the wrapped record is a pure
function of the arguments — code and authority descriptors are null with
size 0, the remaining fields copy the arguments, and the config fields are
determined by the `Config` variant. -/
def diceNewSpec (code_hash : List Nat) (config : Config)
    (authority_hash : List Nat) (mode : DiceMode) (hidden : List Nat) : Prop :=
  let v := (InputValues.new code_hash config authority_hash mode hidden).val
  v.code_hash = code_hash ∧ v.code_descriptor = none ∧
  v.code_descriptor_size = 0 ∧ v.authority_hash = authority_hash ∧
  v.authority_descriptor = none ∧ v.authority_descriptor_size = 0 ∧
  v.mode = mode ∧ v.hidden = hidden ∧
  (∀ c, config = Config.Inline c →
    v.config_type = DiceConfigType.kDiceConfigTypeInline ∧ v.config_value = c ∧
    v.config_descriptor = none ∧ v.config_descriptor_size = 0) ∧
  (∀ d, config = Config.Descriptor d →
    v.config_type = DiceConfigType.kDiceConfigTypeDescriptor ∧
    v.config_value = List.replicate INLINE_CONFIG_SIZE 0 ∧
    v.config_descriptor = some d ∧ v.config_descriptor_size = d.length)

/-- C10: `InputValues::new` fully determines the wrapped `DiceInputValues`
as a pure function of its arguments — null code/authority descriptors of
size 0; for `Config::Inline(c)` an inline config type carrying `c` with a
null descriptor; for `Config::Descriptor(d)` a descriptor config type with
an all-zero inline value, the descriptor pointing at `d` and its length as
size. -/
theorem inputValues_new_spec (code_hash : List Nat) (config : Config)
    (authority_hash : List Nat) (mode : DiceMode) (hidden : List Nat) :
    diceNewSpec code_hash config authority_hash mode hidden := by
  unfold diceNewSpec InputValues.new
  refine ⟨rfl, rfl, rfl, rfl, rfl, rfl, rfl, rfl, ?_, ?_⟩
  · intro c hc
    subst hc
    exact ⟨rfl, rfl, rfl, rfl⟩
  · intro d hd
    subst hd
    exact ⟨rfl, rfl, rfl, rfl⟩

/-- Witness for C10 at a concrete input, discharging the descriptor-variant
implication: the config fields of `InputValues::new` on a two-byte
descriptor. -/
theorem inputValues_new_spec_witness :
    (InputValues.new [1] (Config.Descriptor [2, 3]) [4] DiceMode.kDiceModeNormal
        [5]).val.config_type = DiceConfigType.kDiceConfigTypeDescriptor ∧
      (InputValues.new [1] (Config.Descriptor [2, 3]) [4]
        DiceMode.kDiceModeNormal [5]).val.config_value =
          List.replicate INLINE_CONFIG_SIZE 0 ∧
      (InputValues.new [1] (Config.Descriptor [2, 3]) [4]
        DiceMode.kDiceModeNormal [5]).val.config_descriptor = some [2, 3] ∧
      (InputValues.new [1] (Config.Descriptor [2, 3]) [4]
        DiceMode.kDiceModeNormal [5]).val.config_descriptor_size =
          ([2, 3] : List Nat).length :=
  (inputValues_new_spec [1] (Config.Descriptor [2, 3]) [4]
    DiceMode.kDiceModeNormal [5]).2.2.2.2.2.2.2.2.2 [2, 3] rfl

end OpenDice
